import Mathlib

/-!
# Frequalizer editor: relevance table, change handling and layout

A shallow embedding of `Source/FrequalizerEditor.cpp`.

* Widgets are reduced to the state the editor code reads and writes: a slider is its
  enabled flag, a panel is its bounds, a path is its list of points.
* The processor (`FrequalizerAudioProcessor`) is an external collaborator. Its header is
  not among the sources, so the band count, the numeric values of the `FilterType`
  enumerators, the filter type reported per band and the two `createFrequencyPlot`
  overloads are parameters of the model.
* The `float` division in `resized` is modelled with the rounding of IEEE 754 binary32.
* `juce::Rectangle<int>` is modelled after the JUCE library: `reduced`/`reduce` clamp the
  size at zero, the `removeFrom...` family clips the amount to the available extent.
* `OwnedArray::getUnchecked` is only defined for an index inside the array; the model
  returns `none` for any other index, so every operation that uses it is `Option`-valued.
-/

namespace Frequalizer

/-! ## Filter types -/

/-- The enumerators of `FrequalizerAudioProcessor::FilterType` named by the `case` labels of
`BandEditor::updateControls`, in the order of the labels. -/
inductive FilterName
  | LowPass | LowPass1st | LowShelf | BandPass | AllPass | AllPass1st
  | Notch | Peak | HighShelf | HighPass1st | HighPass
  deriving DecidableEq, Repr

/-- The numeric values of the `FilterType` enumerators. The declaring header is not part of
the sources, so the values are a parameter: `value` gives the eleven filter types and
`LastFilterID` the sentinel that ends the enum. -/
structure FilterTypeEnum where
  value : FilterName → Int
  LastFilterID : Int

/-- The case labels of a `switch` are pairwise different (the compiler rejects a duplicate
label), so distinct enumerators carry distinct values. -/
def FilterTypeEnum.Distinct (E : FilterTypeEnum) : Prop :=
  ∀ a b : FilterName, E.value a = E.value b → a = b

/-- Modelled from the spec: the enumerator values of the missing header, numbered from zero
in the order the glossary lists the filter types, with `LastFilterID` right after them. -/
def glossaryEnum : FilterTypeEnum where
  value
    | .LowPass => 0 | .LowPass1st => 1 | .LowShelf => 2 | .BandPass => 3
    | .AllPass => 4 | .AllPass1st => 5 | .Notch => 6 | .Peak => 7
    | .HighShelf => 8 | .HighPass1st => 9 | .HighPass => 10
  LastFilterID := 11

/-! ## Geometry (`juce::Rectangle<int>`) -/

/-- A `juce::Rectangle<int>`: position of the top-left corner, width and height. -/
structure Rectangle where
  x : Int
  y : Int
  w : Int
  h : Int
  deriving DecidableEq, Repr

namespace Rectangle

/-- Models `Rectangle::getWidth`. -/
def getWidth (r : Rectangle) : Int := r.w

/-- Models `Rectangle::getHeight`. -/
def getHeight (r : Rectangle) : Int := r.h

/-- Models `Rectangle::getRight`. -/
def getRight (r : Rectangle) : Int := r.x + r.w

/-- Models `Rectangle::expanded`: grows the rectangle on every side, the size clamped at zero. -/
def expanded (r : Rectangle) (deltaX deltaY : Int) : Rectangle :=
  { x := r.x - deltaX, y := r.y - deltaY,
    w := max 0 (r.w + deltaX * 2), h := max 0 (r.h + deltaY * 2) }

/-- Models `Rectangle::reduced (deltaX, deltaY)`, which is `expanded (-deltaX, -deltaY)`; the
in-place `reduce` assigns the same rectangle to the receiver. -/
def reduced (r : Rectangle) (deltaX deltaY : Int) : Rectangle :=
  r.expanded (-deltaX) (-deltaY)

/-- Models `Rectangle::removeFromBottom`: returns the strip that was cut off and the rectangle that
is left; the amount is clipped to the height. -/
def removeFromBottom (r : Rectangle) (amountToRemove : Int) : Rectangle × Rectangle :=
  let amount := min amountToRemove r.h
  ({ x := r.x, y := r.y + r.h - amount, w := r.w, h := amount }, { r with h := r.h - amount })

/-- Models `Rectangle::removeFromLeft`: returns the strip that was cut off and the rectangle that is
left; the amount is clipped to the width. -/
def removeFromLeft (r : Rectangle) (amountToRemove : Int) : Rectangle × Rectangle :=
  let strip : Rectangle := { x := r.x, y := r.y, w := min amountToRemove r.w, h := r.h }
  (strip, { r with x := r.x + strip.w, w := r.w - strip.w })

/-- Models `Rectangle::removeFromTop`: returns the strip that was cut off and the rectangle that is
left; the amount is clipped to the height. -/
def removeFromTop (r : Rectangle) (amountToRemove : Int) : Rectangle × Rectangle :=
  let strip : Rectangle := { x := r.x, y := r.y, w := r.w, h := min amountToRemove r.h }
  (strip, { r with y := r.y + strip.h, h := r.h - strip.h })

end Rectangle

/-! ## Widgets -/

/-- A `juce::Path`, reduced to the points it holds. -/
abbrev Path := List (Int × Int)

/-- Models `Path::clear`. -/
def Path.clear (_ : Path) : Path := []

/-- A `juce::Slider`, reduced to its enabled flag. A freshly constructed component is
enabled. -/
structure Slider where
  enabled : Bool := true
  deriving DecidableEq, Repr

/-- Models `Component::setEnabled`. -/
def Slider.setEnabled (_ : Slider) (shouldBeEnabled : Bool) : Slider :=
  { enabled := shouldBeEnabled }

/-- The state of a `FrequalizerAudioProcessorEditor::BandEditor` that the editor code reads or
writes: its index, the three sliders, its response curve and its bounds. -/
structure BandEditor where
  index : Nat
  frequency : Slider
  quality : Slider
  gain : Slider
  frequencyResponse : Path
  bounds : Rectangle
  deriving DecidableEq, Repr

/-- The (frequency, quality, gain) enabled flags of a band panel. -/
def BandEditor.enabledFlags (b : BandEditor) : Bool × Bool × Bool :=
  (b.frequency.enabled, b.quality.enabled, b.gain.enabled)

/-- Models `BandEditor::updateControls`: the `switch` over the filter type, one branch per case
label in source order, the last branch being `default`. -/
def BandEditor.updateControls (E : FilterTypeEnum) (type : Int) (b : BandEditor) : BandEditor :=
  if type = E.value .LowPass then
    { b with frequency := b.frequency.setEnabled true, quality := b.quality.setEnabled false,
             gain := b.gain.setEnabled false }
  else if type = E.value .LowPass1st then
    { b with frequency := b.frequency.setEnabled true, quality := b.quality.setEnabled false,
             gain := b.gain.setEnabled false }
  else if type = E.value .LowShelf then
    { b with frequency := b.frequency.setEnabled true, quality := b.quality.setEnabled false,
             gain := b.gain.setEnabled true }
  else if type = E.value .BandPass then
    { b with frequency := b.frequency.setEnabled true, quality := b.quality.setEnabled true,
             gain := b.gain.setEnabled false }
  else if type = E.value .AllPass then
    { b with frequency := b.frequency.setEnabled true, quality := b.quality.setEnabled false,
             gain := b.gain.setEnabled false }
  else if type = E.value .AllPass1st then
    { b with frequency := b.frequency.setEnabled true, quality := b.quality.setEnabled false,
             gain := b.gain.setEnabled false }
  else if type = E.value .Notch then
    { b with frequency := b.frequency.setEnabled true, quality := b.quality.setEnabled true,
             gain := b.gain.setEnabled false }
  else if type = E.value .Peak then
    { b with frequency := b.frequency.setEnabled true, quality := b.quality.setEnabled true,
             gain := b.gain.setEnabled true }
  else if type = E.value .HighShelf then
    { b with frequency := b.frequency.setEnabled true, quality := b.quality.setEnabled true,
             gain := b.gain.setEnabled true }
  else if type = E.value .HighPass1st then
    { b with frequency := b.frequency.setEnabled true, quality := b.quality.setEnabled false,
             gain := b.gain.setEnabled false }
  else if type = E.value .HighPass then
    { b with frequency := b.frequency.setEnabled true, quality := b.quality.setEnabled true,
             gain := b.gain.setEnabled false }
  else
    { b with frequency := b.frequency.setEnabled true, quality := b.quality.setEnabled true,
             gain := b.gain.setEnabled true }

/-! ## Single-precision arithmetic

`resized` computes the width of a band panel as a `float`. The values involved are
non-negative, so a `float` is modelled by the exact number it stands for and every operation
rounds to the nearest number with a 24-bit significand, ties to the even significand, as
IEEE 754 binary32 does. The exponent range is not modelled: the quotient of two `int` values
never leaves the normal range of binary32. -/

/-- The integer nearest to `n / d`, a tie going to the even one. -/
def roundHalfEven (n d : Nat) : Nat :=
  let q := n / d
  let r := n % d
  if 2 * r < d then q else if d < 2 * r then q + 1 else if q % 2 = 0 then q else q + 1

/-- The number of doublings of `a` it takes to reach `2^23 * b`: the least `t` with
`2^23 ≤ a * 2^t / b`, searched upwards with the given fuel. -/
def shiftUp (b : Nat) : Nat → Nat → Nat
  | 0, _ => 0
  | fuel + 1, a => if 2 ^ 23 * b ≤ a then 0 else shiftUp b fuel (2 * a) + 1

/-- The number of doublings of `b` it takes to bring `a / b` below `2^24`: the least `s`
with `a / (b * 2^s) < 2^24`, searched upwards with the given fuel. -/
def shiftDown (a : Nat) : Nat → Nat → Nat
  | 0, _ => 0
  | fuel + 1, b => if a < 2 ^ 24 * b then 0 else shiftDown a fuel (2 * b) + 1

/-- The conversion of a non-negative `int` to `float`: exact below `2^24`, otherwise rounded
to 24 significant bits. The result is again an integer. -/
def intToFloat (n : Nat) : Nat :=
  let s := shiftDown n n 1
  roundHalfEven n (2 ^ s) * 2 ^ s

/-- The `float` quotient of two non-negative `float` values that are integers, converted to
`int`, which truncates. A quotient below `2^23` has significand `a * 2^t / b` rounded and
exponent `-t`; a larger one has significand `a / (b * 2^s)` rounded and exponent `s`. -/
def floatDivTrunc (a b : Nat) : Nat :=
  if a = 0 ∨ b = 0 then 0
  else if a < 2 ^ 23 * b then
    let t := shiftUp b (23 + b) a
    roundHalfEven (a * 2 ^ t) b / 2 ^ t
  else
    let s := shiftDown a a b
    roundHalfEven a (b * 2 ^ s) * 2 ^ s

/-- The value of `static_cast<float> (w) / d` for an `int` `w` and a positive `int` `d`,
converted to `int` as it is when handed to `removeFromLeft`: both operands are converted to
`float`, the division rounds, the conversion back truncates. Rounding is symmetric, so the
sign is carried separately. -/
def truncatedFloatQuotient (w : Int) (d : Nat) : Int :=
  w.sign * floatDivTrunc (intToFloat w.natAbs) (intToFloat d)

/-! ## The processor, as the editor sees it -/

/-- One invocation of `processor.createFrequencyPlot`: the band index (`none` for the
overload without an index, which plots the sum of all bands), the contents of the path
argument on entry and the bounds argument. -/
structure PlotCall where
  band : Option Nat
  path : Path
  bounds : Rectangle
  deriving DecidableEq, Repr

/-- The part of `FrequalizerAudioProcessor` the editor uses. Its header is not part of the
sources, so everything here is a parameter: the constant `numBands` (a count, hence a
natural number), the `FilterType` values, `paramOutput`, `getFilterType`, the two overloads
of `createFrequencyPlot` as functions from the path passed in to the path left behind, and
the listener list of its `ChangeBroadcaster` base, listeners being named by numbers. -/
structure Processor where
  numBands : Nat
  filterTypes : FilterTypeEnum
  paramOutput : String
  getFilterType : Nat → Int
  createFrequencyPlotBand : Path → Nat → Rectangle → Path
  createFrequencyPlot : Path → Rectangle → Path
  changeListeners : List Nat

/-- Models `ChangeBroadcaster::addChangeListener`: the listener list adds a listener only if it is
not there yet. -/
def Processor.addChangeListener (p : Processor) (listener : Nat) : Processor :=
  { p with changeListeners :=
      if listener ∈ p.changeListeners then p.changeListeners
      else p.changeListeners ++ [listener] }

/-- Models `ChangeBroadcaster::removeChangeListener`: removes the first matching entry of the
listener list. -/
def Processor.removeChangeListener (p : Processor) (listener : Nat) : Processor :=
  { p with changeListeners := p.changeListeners.erase listener }

/-- The listeners whose `changeListenerCallback` runs when the broadcaster delivers a change
message: the ones registered at the time of delivery. -/
def Processor.notifiedListeners (p : Processor) : List Nat := p.changeListeners

/-! ## The editor -/

/-- The state of a `FrequalizerAudioProcessorEditor`: the component size, the owned band
panels, the sum curve, the plot frame, the bounds of the output frame and of the output
slider, the branding rectangle and the parameters its own sliders are attached to. Two
fields are instrumentation and not program state: `plotCalls` records every
`createFrequencyPlot` invocation the editor made, in order, and `repaints` counts the
`repaint` requests. -/
structure Editor where
  width : Nat
  height : Nat
  bandEditors : List BandEditor
  frequencyResponse : Path
  plotFrame : Rectangle
  frame : Rectangle
  output : Rectangle
  branding : Rectangle
  attachments : List String
  plotCalls : List PlotCall
  repaints : Nat
  deriving DecidableEq, Repr

/-- A counted loop `for (int i = start; i < start + count; ++i) body`, whose body may fail. -/
def forLoop {σ : Type} (body : Nat → σ → Option σ) : Nat → Nat → σ → Option σ
  | 0, _, s => some s
  | count + 1, i, s => (body i s).bind (forLoop body count (i + 1))

/-- The constructor of `BandEditor`: the three sliders start enabled, the curve empty, and
the last statement applies `updateControls` to the filter type the processor reports for
this index. Labels, colours, combo box items, parameter attachments and skew factors are
left out. -/
def BandEditor.construct (i : Nat) (p : Processor) : BandEditor :=
  let b : BandEditor :=
    { index := i, frequency := {}, quality := {}, gain := {},
      frequencyResponse := [], bounds := ⟨0, 0, 0, 0⟩ }
  b.updateControls p.filterTypes (p.getFilterType b.index)

namespace Editor

/-- Models `Component::getLocalBounds`. -/
def getLocalBounds (ed : Editor) : Rectangle :=
  { x := 0, y := 0, w := ed.width, h := ed.height }

/-- The range-based loop of `resized` over the band panels: each takes the next strip of
the given width from the left of the band space. -/
def layoutBands (width : Int) : Rectangle → List BandEditor → Rectangle × List BandEditor
  | bandSpace, [] => (bandSpace, [])
  | bandSpace, band :: rest =>
    let (strip, bandSpace) := bandSpace.removeFromLeft width
    let (bandSpace, rest) := layoutBands width bandSpace rest
    (bandSpace, { band with bounds := strip } :: rest)

/-- The body of the curve loop of `resized`. -/
def resizedBody (p : Processor) (i : Nat) (ed : Editor) : Option Editor := do
  let band ← ed.bandEditors[i]?
  let band := { band with frequencyResponse := band.frequencyResponse.clear }
  let call : PlotCall := ⟨some i, band.frequencyResponse, ed.plotFrame⟩
  let band := { band with
    frequencyResponse := p.createFrequencyPlotBand band.frequencyResponse i ed.plotFrame }
  some { ed with bandEditors := ed.bandEditors.set i band, plotCalls := ed.plotCalls ++ [call] }

/-- Models `FrequalizerAudioProcessorEditor::resized`. The width of a band panel is the
`float` quotient of the source, rounded as binary32 rounds and truncated when it is handed
to `removeFromLeft`. The `double` quotient `getHeight() / 2.0` handed to `removeFromTop` is
exact for every `int`, halving being exact in binary64, so its truncation is the truncated
integer quotient. The loop bound `bandEditors.size()` is read once, the body never changing
the size of the array. -/
def resized (p : Processor) (ed : Editor) : Option Editor := do
  let plotFrame := ed.getLocalBounds.reduced 3 3
  let (bandSpace, plotFrame) := plotFrame.removeFromBottom (Int.tdiv ed.height 2)
  let width : Int := truncatedFloatQuotient bandSpace.getWidth (ed.bandEditors.length + 1)
  let (bandSpace, bands) := layoutBands width bandSpace ed.bandEditors
  let (frame, bandSpace) := bandSpace.removeFromTop (Int.tdiv bandSpace.getHeight 2)
  let output := frame.reduced 8 8
  let plotFrame := plotFrame.reduced 3 3
  let branding := bandSpace.reduced 5 5
  let ed := { ed with plotFrame := plotFrame, bandEditors := bands, frame := frame,
                      output := output, branding := branding }
  let ed ← forLoop (resizedBody p) ed.bandEditors.length 0 ed
  let cleared := ed.frequencyResponse.clear
  let call : PlotCall := ⟨none, cleared, ed.plotFrame⟩
  some { ed with frequencyResponse := p.createFrequencyPlot cleared ed.plotFrame,
                 plotCalls := ed.plotCalls ++ [call] }

/-- Models `Component::setSize`: stores the new size and calls `resized` when the size changed. -/
def setSize (p : Processor) (newWidth newHeight : Nat) (ed : Editor) : Option Editor :=
  if ed.width = newWidth ∧ ed.height = newHeight then some ed
  else resized p { ed with width := newWidth, height := newHeight }

/-- The body of the loop of `changeListenerCallback`. -/
def changeListenerBody (p : Processor) (i : Nat) (ed : Editor) : Option Editor := do
  let band ← ed.bandEditors[i]?
  let band := band.updateControls p.filterTypes (p.getFilterType i)
  let band := { band with frequencyResponse := band.frequencyResponse.clear }
  let call : PlotCall := ⟨some i, band.frequencyResponse, ed.plotFrame⟩
  let band := { band with
    frequencyResponse := p.createFrequencyPlotBand band.frequencyResponse i ed.plotFrame }
  some { ed with bandEditors := ed.bandEditors.set i band, plotCalls := ed.plotCalls ++ [call] }

/-- Models `FrequalizerAudioProcessorEditor::changeListenerCallback`. -/
def changeListenerCallback (p : Processor) (ed : Editor) : Option Editor := do
  let ed ← forLoop (changeListenerBody p) ed.bandEditors.length 0 ed
  let cleared := ed.frequencyResponse.clear
  let call : PlotCall := ⟨none, cleared, ed.plotFrame⟩
  some { ed with frequencyResponse := p.createFrequencyPlot cleared ed.plotFrame,
                 plotCalls := ed.plotCalls ++ [call],
                 repaints := ed.repaints + 1 }

/-- What `paint` sends to the graphics context. -/
inductive DrawCommand
  | fillAll
  | strokeBand (band : Nat) (path : Path)
  | strokeSum (path : Path)
  | drawLogo (within : Rectangle)
  deriving DecidableEq, Repr

/-- Models `FrequalizerAudioProcessorEditor::paint`. It writes no member of the editor, so the
result is only the list of drawing commands; the loop runs to `numBands`, not to the size of
the array. -/
def paint (p : Processor) (ed : Editor) : Option (List DrawCommand) := do
  let g : List DrawCommand := [.fillAll]
  let g ← forLoop (fun i g => do
      let band ← ed.bandEditors[i]?
      some (g ++ [.strokeBand i band.frequencyResponse])) p.numBands 0 g
  let g := g ++ [.strokeSum ed.frequencyResponse]
  some (g ++ [.drawLogo ed.branding])

/-- The constructor of `FrequalizerAudioProcessorEditor` for the editor object `self`:
one `BandEditor` per band, the attachment of the output slider, `setSize (840, 500)` on a
component that starts with size zero, and last the registration as a change listener. -/
def construct (p : Processor) (self : Nat) : Option (Processor × Editor) := do
  let ed : Editor :=
    { width := 0, height := 0, bandEditors := [], frequencyResponse := [],
      plotFrame := ⟨0, 0, 0, 0⟩, frame := ⟨0, 0, 0, 0⟩, output := ⟨0, 0, 0, 0⟩,
      branding := ⟨0, 0, 0, 0⟩, attachments := [], plotCalls := [], repaints := 0 }
  let ed ← forLoop (fun i ed =>
      some { ed with bandEditors := ed.bandEditors ++ [BandEditor.construct i p] })
    p.numBands 0 ed
  let ed := { ed with attachments := ed.attachments ++ [p.paramOutput] }
  let ed ← setSize p 840 500 ed
  some (p.addChangeListener self, ed)

/-- The destructor of `FrequalizerAudioProcessorEditor`. -/
def destruct (p : Processor) (self : Nat) : Processor :=
  p.removeChangeListener self

end Editor

/-! ## The relevance table as the specification words it -/

/-- The rows of the relevance table of the specification for the eleven filter types, as
(frequency, quality, gain). -/
def relevanceTable : FilterName → Bool × Bool × Bool
  | .LowPass | .LowPass1st | .AllPass | .AllPass1st | .HighPass1st => (true, false, false)
  | .LowShelf => (true, false, true)
  | .BandPass | .Notch | .HighPass => (true, true, false)
  | .Peak | .HighShelf => (true, true, true)

/-- All eleven filter types. -/
def FilterName.all : List FilterName :=
  [.LowPass, .LowPass1st, .LowShelf, .BandPass, .AllPass, .AllPass1st,
   .Notch, .Peak, .HighShelf, .HighPass1st, .HighPass]

/-- The filter type an integer stands for, if it is the value of one of the eleven. -/
def FilterTypeEnum.decode (E : FilterTypeEnum) (type : Int) : Option FilterName :=
  FilterName.all.find? (fun k => E.value k == type)

/-- The specification's `applyRelevance`: the table row of a known filter type, and
(on, on, on) for any other value. -/
def applyRelevance (E : FilterTypeEnum) (type : Int) : Bool × Bool × Bool :=
  match E.decode type with
  | some k => relevanceTable k
  | none => (true, true, true)

/-! ## Auxiliary definitions used by the statements and proofs -/

/-- Applies `f` to every element, the index counted from `i`. -/
def mapFrom (f : Nat → BandEditor → BandEditor) : Nat → List BandEditor → List BandEditor
  | _, [] => []
  | i, b :: bs => f i b :: mapFrom f (i + 1) bs

/-- The common shape of the two curve loops: panel `i` is replaced by `F plotFrame i` of
itself and one plot call with an empty path is recorded. -/
def bandStep (F : Rectangle → Nat → BandEditor → BandEditor) (i : Nat) (ed : Editor) :
    Option Editor :=
  (ed.bandEditors[i]?).bind fun band =>
    some { ed with bandEditors := ed.bandEditors.set i (F ed.plotFrame i band),
                   plotCalls := ed.plotCalls ++ [⟨some i, [], ed.plotFrame⟩] }

/-- What the curve loop of `resized` does to one panel. -/
def replot (p : Processor) (r : Rectangle) (i : Nat) (b : BandEditor) : BandEditor :=
  { b with frequencyResponse := p.createFrequencyPlotBand [] i r }

/-- What the loop of `changeListenerCallback` does to one panel. -/
def refresh (p : Processor) (r : Rectangle) (i : Nat) (b : BandEditor) : BandEditor :=
  { b.updateControls p.filterTypes (p.getFilterType i) with
    frequencyResponse := p.createFrequencyPlotBand [] i r }

/-- The plot calls a band loop over the indices `i, ..., i + count - 1` records. -/
def bandCalls (r : Rectangle) (i count : Nat) : List PlotCall :=
  (List.range' i count).map fun j => ⟨some j, [], r⟩

/-- The band loop followed by the rebuild of the sum curve, as both handlers run it. -/
def rebuilt (p : Processor) (F : Rectangle → Nat → BandEditor → BandEditor) (ed : Editor) :
    Editor :=
  { ed with
    bandEditors := mapFrom (F ed.plotFrame) 0 ed.bandEditors,
    frequencyResponse := p.createFrequencyPlot [] ed.plotFrame,
    plotCalls := ed.plotCalls ++ bandCalls ed.plotFrame 0 ed.bandEditors.length ++
      [⟨none, [], ed.plotFrame⟩] }

/-- The state `resized` has reached when its curve loop starts. -/
def laidOut (ed : Editor) : Editor :=
  let cut := (ed.getLocalBounds.reduced 3 3).removeFromBottom (Int.tdiv ed.height 2)
  let width : Int := truncatedFloatQuotient cut.1.getWidth (ed.bandEditors.length + 1)
  let placed := Editor.layoutBands width cut.1 ed.bandEditors
  let top := placed.1.removeFromTop (Int.tdiv placed.1.getHeight 2)
  { ed with plotFrame := cut.2.reduced 3 3, bandEditors := placed.2, frame := top.1,
            output := top.1.reduced 8 8, branding := top.2.reduced 5 5 }

/-- A processor with three bands set to LowShelf, Peak and AllPass under the glossary
numbering, whose plots record the band index and the extent of the region. -/
def demoProcessor : Processor where
  numBands := 3
  filterTypes := glossaryEnum
  paramOutput := "output"
  getFilterType := fun i => [2, 7, 4].getD i 0
  createFrequencyPlotBand := fun path i r => path ++ [((i : Int), r.w)]
  createFrequencyPlot := fun path r => path ++ [(r.w, r.h)]
  changeListeners := [1, 2]

/-- A band panel with stale flags and a stale curve. -/
def demoBand (i : Nat) : BandEditor :=
  { index := i, frequency := ⟨false⟩, quality := ⟨true⟩, gain := ⟨false⟩,
    frequencyResponse := [(9, 9)], bounds := ⟨0, 0, 10, 10⟩ }

/-- An editor state with three stale band panels. -/
def demoEditor : Editor :=
  { width := 840, height := 500, bandEditors := [demoBand 0, demoBand 1, demoBand 2],
    frequencyResponse := [(5, 5)], plotFrame := ⟨6, 6, 828, 238⟩, frame := ⟨0, 0, 0, 0⟩,
    output := ⟨0, 0, 0, 0⟩, branding := ⟨0, 0, 0, 0⟩, attachments := ["output"],
    plotCalls := [], repaints := 0 }

/-- The example editor made 16777225 pixels wide, so that its strip is wider than `2^24`. -/
def wideEditor : Editor :=
  { demoEditor with width := 16777225 }

/-- The editor state the constructor hands to `resized`: one freshly constructed panel per
band, the output attachment and the size 840 x 500. -/
def fresh (p : Processor) : Editor :=
  { width := 840, height := 500,
    bandEditors := (List.range' 0 p.numBands).map fun k => BandEditor.construct k p,
    frequencyResponse := [],
    plotFrame := ⟨0, 0, 0, 0⟩, frame := ⟨0, 0, 0, 0⟩, output := ⟨0, 0, 0, 0⟩,
    branding := ⟨0, 0, 0, 0⟩, attachments := [p.paramOutput], plotCalls := [], repaints := 0 }

/-- What may happen to the processor while the editor `self` does not act on it: another
listener is added, a listener is removed, or the processor changes anything but its
listener list. -/
inductive OthersStep (self : Nat) : Processor → Processor → Prop
  | add (p : Processor) (l : Nat) : l ≠ self → OthersStep self p (p.addChangeListener l)
  | remove (p : Processor) (l : Nat) : l ≠ self → OthersStep self p (p.removeChangeListener l)
  | other (p q : Processor) : q.changeListeners = p.changeListeners → OthersStep self p q

/-- The editor states that can arise for a plugin with `N` bands: the state the constructor
leaves, and from any such state the one after the host resizes the editor or after a change
notification is handled, the processor being in any state with the same band count. -/
inductive Reachable (N : Nat) : Editor → Prop
  | construct (p p' : Processor) (self : Nat) (ed : Editor) :
      p.numBands = N → Editor.construct p self = some (p', ed) → Reachable N ed
  | setSize (p : Processor) (w h : Nat) (ed ed' : Editor) :
      Reachable N ed → p.numBands = N → Editor.setSize p w h ed = some ed' → Reachable N ed'
  | change (p : Processor) (ed ed' : Editor) :
      Reachable N ed → p.numBands = N → Editor.changeListenerCallback p ed = some ed' →
      Reachable N ed'

/-- The bottom strip `resized` cuts from the editor bounds. -/
def bottomStrip (ed : Editor) : Rectangle :=
  ((ed.getLocalBounds.reduced 3 3).removeFromBottom (Int.tdiv ed.height 2)).1

/-- What `setBounds` does to band `k` when the strip starts at `x0` and every band gets
`width` pixels. -/
def placeAt (x0 y width height : Int) (k : Nat) (b : BandEditor) : BandEditor :=
  { b with bounds := ⟨x0 + k * width, y, width, height⟩ }

/-! ## Relevance: lemmas -/

theorem glossaryEnum_distinct : glossaryEnum.Distinct := by
  intro a b h
  cases a <;> cases b <;> first | rfl | (exact absurd h (by decide))

theorem FilterTypeEnum.Distinct.value_eq_iff {E : FilterTypeEnum} (hE : E.Distinct)
    (a b : FilterName) : E.value a = E.value b ↔ a = b :=
  ⟨hE a b, fun h => h ▸ rfl⟩

theorem enabledFlags_updateControls_value {E : FilterTypeEnum} (hE : E.Distinct)
    (k : FilterName) (b : BandEditor) :
    (b.updateControls E (E.value k)).enabledFlags = relevanceTable k := by
  have h := hE.value_eq_iff
  cases k <;>
    simp [BandEditor.updateControls, BandEditor.enabledFlags, Slider.setEnabled,
      relevanceTable, h]

theorem enabledFlags_updateControls_unknown (E : FilterTypeEnum) (type : Int)
    (h : ∀ k : FilterName, type ≠ E.value k) (b : BandEditor) :
    (b.updateControls E type).enabledFlags = (true, true, true) := by
  simp [BandEditor.updateControls, BandEditor.enabledFlags, Slider.setEnabled, h]

theorem decode_value {E : FilterTypeEnum} (hE : E.Distinct) (k : FilterName) :
    E.decode (E.value k) = some k := by
  have h : ∀ a b : FilterName, (E.value a == E.value b) = decide (a = b) := by
    intro a b
    by_cases e : a = b
    · subst e; simp
    · have : ¬ E.value a = E.value b := fun c => e (hE a b c)
      simp [e, this]
  cases k <;> simp [FilterTypeEnum.decode, FilterName.all, List.find?, h]

theorem decode_unknown (E : FilterTypeEnum) (type : Int)
    (h : ∀ k : FilterName, type ≠ E.value k) : E.decode type = none := by
  have h2 : ∀ k : FilterName, (E.value k == type) = false := by
    intro k
    have : ¬ E.value k = type := fun e => h k e.symm
    simp [this]
  simp [FilterTypeEnum.decode, FilterName.all, List.find?, h2]

theorem known_or_unknown (E : FilterTypeEnum) (type : Int) :
    (∃ k : FilterName, type = E.value k) ∨ ∀ k : FilterName, type ≠ E.value k := by
  by_cases h : ∃ k : FilterName, type = E.value k
  · exact Or.inl h
  · exact Or.inr (fun k e => h ⟨k, e⟩)

/-- On a well-formed enum the `switch` of `updateControls` computes `applyRelevance`. -/
theorem enabledFlags_updateControls {E : FilterTypeEnum} (hE : E.Distinct) (type : Int)
    (b : BandEditor) : (b.updateControls E type).enabledFlags = applyRelevance E type := by
  rcases known_or_unknown E type with ⟨k, rfl⟩ | h
  · rw [enabledFlags_updateControls_value hE, applyRelevance, decode_value hE]
  · rw [enabledFlags_updateControls_unknown E type h, applyRelevance, decode_unknown E type h]

/-- The function `updateControls` writes the three enabled flags and nothing else of the panel. -/
theorem updateControls_frame (E : FilterTypeEnum) (type : Int) (b : BandEditor) :
    (b.updateControls E type).index = b.index ∧
    (b.updateControls E type).frequencyResponse = b.frequencyResponse ∧
    (b.updateControls E type).bounds = b.bounds := by
  unfold BandEditor.updateControls
  refine ⟨?_, ?_, ?_⟩
  · simp only [apply_ite BandEditor.index, ite_self]
  · simp only [apply_ite BandEditor.frequencyResponse, ite_self]
  · simp only [apply_ite BandEditor.bounds, ite_self]

/-- The flags `updateControls` sets do not depend on the panel it is applied to. -/
theorem enabledFlags_updateControls_indep (E : FilterTypeEnum) (type : Int)
    (b c : BandEditor) :
    (b.updateControls E type).enabledFlags = (c.updateControls E type).enabledFlags := by
  simp only [BandEditor.updateControls, BandEditor.enabledFlags, Slider.setEnabled,
    apply_ite BandEditor.frequency, apply_ite BandEditor.quality, apply_ite BandEditor.gain,
    apply_ite Slider.enabled]

/-- A panel is determined by its index, its flags, its curve and its bounds. -/
theorem BandEditor.eq_of_fields {b c : BandEditor} (hi : b.index = c.index)
    (hf : b.enabledFlags = c.enabledFlags)
    (hr : b.frequencyResponse = c.frequencyResponse) (hb : b.bounds = c.bounds) : b = c := by
  obtain ⟨bi, ⟨bf⟩, ⟨bq⟩, ⟨bg⟩, br, bb⟩ := b
  obtain ⟨ci, ⟨cf⟩, ⟨cq⟩, ⟨cg⟩, cr, cb⟩ := c
  simp only [BandEditor.enabledFlags, Prod.mk.injEq] at hi hf hr hb
  obtain ⟨h1, h2, h3⟩ := hf
  subst hi h1 h2 h3 hr hb
  rfl

theorem updateControls_idem (E : FilterTypeEnum) (type : Int) (b : BandEditor) :
    (b.updateControls E type).updateControls E type = b.updateControls E type := by
  obtain ⟨h1, h2, h3⟩ := updateControls_frame E type (b.updateControls E type)
  exact BandEditor.eq_of_fields h1 (enabledFlags_updateControls_indep E type _ _) h2 h3

/-! ## Loops over the band panels -/

theorem length_mapFrom (f : Nat → BandEditor → BandEditor) :
    ∀ (bs : List BandEditor) (i : Nat), (mapFrom f i bs).length = bs.length
  | [], _ => rfl
  | _ :: bs, i => by simp [mapFrom, length_mapFrom f bs (i + 1)]

theorem getElem?_mapFrom (f : Nat → BandEditor → BandEditor) :
    ∀ (bs : List BandEditor) (i j : Nat), (mapFrom f i bs)[j]? = (bs[j]?).map (f (i + j))
  | [], _, _ => by simp [mapFrom]
  | b :: bs, i, 0 => by simp [mapFrom]
  | b :: bs, i, j + 1 => by
    simp only [mapFrom, List.getElem?_cons_succ]
    rw [getElem?_mapFrom f bs (i + 1) j]
    have e : i + 1 + j = i + (j + 1) := by omega
    rw [e]

theorem mapFrom_mapFrom (f g : Nat → BandEditor → BandEditor) :
    ∀ (bs : List BandEditor) (i : Nat),
      mapFrom f i (mapFrom g i bs) = mapFrom (fun j b => f j (g j b)) i bs
  | [], _ => rfl
  | _ :: bs, i => by simp [mapFrom, mapFrom_mapFrom f g bs (i + 1)]

theorem mapFrom_congr {f g : Nat → BandEditor → BandEditor} (h : ∀ j b, f j b = g j b) :
    ∀ (bs : List BandEditor) (i : Nat), mapFrom f i bs = mapFrom g i bs
  | [], _ => rfl
  | _ :: bs, i => by simp [mapFrom, h, mapFrom_congr h bs (i + 1)]

theorem getElem?_append_length (pre : List BandEditor) (b : BandEditor)
    (rest : List BandEditor) : (pre ++ b :: rest)[pre.length]? = some b := by
  induction pre with
  | nil => simp
  | cons a pre ih => simpa using ih

theorem set_append_length (pre : List BandEditor) (b c : BandEditor)
    (rest : List BandEditor) : (pre ++ b :: rest).set pre.length c = pre ++ c :: rest := by
  induction pre with
  | nil => rfl
  | cons a pre ih => simp

theorem resizedBody_eq (p : Processor) : Editor.resizedBody p = bandStep (replot p) := by
  funext i ed
  simp only [Editor.resizedBody, bandStep, replot, Path.clear, bind, Option.bind]

theorem changeListenerBody_eq (p : Processor) :
    Editor.changeListenerBody p = bandStep (refresh p) := by
  funext i ed
  simp only [Editor.changeListenerBody, bandStep, refresh, Path.clear, bind, Option.bind]

theorem forLoop_bandStep (F : Rectangle → Nat → BandEditor → BandEditor) :
    ∀ (rest pre : List BandEditor) (ed : Editor), ed.bandEditors = pre ++ rest →
      forLoop (bandStep F) rest.length pre.length ed =
        some { ed with
          bandEditors := pre ++ mapFrom (F ed.plotFrame) pre.length rest,
          plotCalls := ed.plotCalls ++ bandCalls ed.plotFrame pre.length rest.length }
  | [], pre, ed, h => by
    simp [forLoop, mapFrom, bandCalls, ← h]
  | b :: rest, pre, ed, h => by
    have hstep : bandStep F pre.length ed =
        some { ed with bandEditors := (pre ++ [F ed.plotFrame pre.length b]) ++ rest,
                       plotCalls := ed.plotCalls ++ [⟨some pre.length, [], ed.plotFrame⟩] } := by
      have h1 := getElem?_append_length pre b rest
      have h2 := set_append_length pre b (F ed.plotFrame pre.length b) rest
      simp only [bandStep, h, h1, h2, Option.bind, List.append_assoc, List.singleton_append]
    have ih := forLoop_bandStep F rest (pre ++ [F ed.plotFrame pre.length b])
      { ed with bandEditors := (pre ++ [F ed.plotFrame pre.length b]) ++ rest,
                plotCalls := ed.plotCalls ++ [⟨some pre.length, [], ed.plotFrame⟩] } rfl
    simp only [List.length_append, List.length_singleton] at ih
    simp only [List.length_cons, forLoop, hstep, Option.bind, ih]
    simp [mapFrom, bandCalls, List.range'_succ]

/-- The band loop run over the whole array. -/
theorem forLoop_bandStep_all (F : Rectangle → Nat → BandEditor → BandEditor) (ed : Editor) :
    forLoop (bandStep F) ed.bandEditors.length 0 ed =
      some { ed with
        bandEditors := mapFrom (F ed.plotFrame) 0 ed.bandEditors,
        plotCalls := ed.plotCalls ++ bandCalls ed.plotFrame 0 ed.bandEditors.length } := by
  simpa using forLoop_bandStep F ed.bandEditors [] ed rfl

/-! ## Closed forms of the two handlers -/

theorem changeListenerCallback_eq (p : Processor) (ed : Editor) :
    Editor.changeListenerCallback p ed =
      some { rebuilt p (refresh p) ed with repaints := ed.repaints + 1 } := by
  simp only [Editor.changeListenerCallback, changeListenerBody_eq, forLoop_bandStep_all,
    bind, Option.bind, Path.clear, rebuilt, List.append_assoc]

theorem resized_eq (p : Processor) (ed : Editor) :
    Editor.resized p ed = some (rebuilt p (replot p) (laidOut ed)) := by
  have h : Editor.resized p ed =
      (forLoop (Editor.resizedBody p) (laidOut ed).bandEditors.length 0 (laidOut ed)).bind
        fun ed => some { ed with
          frequencyResponse := p.createFrequencyPlot [] ed.plotFrame,
          plotCalls := ed.plotCalls ++ [⟨none, [], ed.plotFrame⟩] } := rfl
  rw [h, resizedBody_eq, forLoop_bandStep_all]
  simp only [Option.bind, rebuilt, List.append_assoc]

theorem layoutBands_length (width : Int) :
    ∀ (bands : List BandEditor) (space : Rectangle),
      (Editor.layoutBands width space bands).2.length = bands.length
  | [], _ => rfl
  | _ :: bands, space => by
    simp [Editor.layoutBands, layoutBands_length width bands]

theorem laidOut_length (ed : Editor) :
    (laidOut ed).bandEditors.length = ed.bandEditors.length := by
  simp [laidOut, layoutBands_length]

/-! ## Example states -/

/-! ## Claims on the relevance table -/

/-- C1: for each of the eleven known filter types `updateControls` sets the (frequency,
quality, gain) enabled flags to the row of the relevance table, whatever the flags of the
panel were before: LowPass, LowPass1st, AllPass, AllPass1st, HighPass1st give (on, off, off),
LowShelf gives (on, off, on), BandPass, Notch, HighPass give (on, on, off), Peak and
HighShelf give (on, on, on). -/
theorem updateControls_known_types (E : FilterTypeEnum) (hE : E.Distinct) (b : BandEditor) :
    (b.updateControls E (E.value .LowPass)).enabledFlags = (true, false, false) ∧
    (b.updateControls E (E.value .LowPass1st)).enabledFlags = (true, false, false) ∧
    (b.updateControls E (E.value .AllPass)).enabledFlags = (true, false, false) ∧
    (b.updateControls E (E.value .AllPass1st)).enabledFlags = (true, false, false) ∧
    (b.updateControls E (E.value .HighPass1st)).enabledFlags = (true, false, false) ∧
    (b.updateControls E (E.value .LowShelf)).enabledFlags = (true, false, true) ∧
    (b.updateControls E (E.value .BandPass)).enabledFlags = (true, true, false) ∧
    (b.updateControls E (E.value .Notch)).enabledFlags = (true, true, false) ∧
    (b.updateControls E (E.value .HighPass)).enabledFlags = (true, true, false) ∧
    (b.updateControls E (E.value .Peak)).enabledFlags = (true, true, true) ∧
    (b.updateControls E (E.value .HighShelf)).enabledFlags = (true, true, true) :=
  ⟨enabledFlags_updateControls_value hE .LowPass b,
   enabledFlags_updateControls_value hE .LowPass1st b,
   enabledFlags_updateControls_value hE .AllPass b,
   enabledFlags_updateControls_value hE .AllPass1st b,
   enabledFlags_updateControls_value hE .HighPass1st b,
   enabledFlags_updateControls_value hE .LowShelf b,
   enabledFlags_updateControls_value hE .BandPass b,
   enabledFlags_updateControls_value hE .Notch b,
   enabledFlags_updateControls_value hE .HighPass b,
   enabledFlags_updateControls_value hE .Peak b,
   enabledFlags_updateControls_value hE .HighShelf b⟩

/-- C1 at the glossary numbering: a stale panel set to LowShelf has frequency and gain
enabled and quality disabled, and a panel set to Peak and then to AllPass ends with only
frequency enabled. -/
theorem updateControls_known_types_witness :
    glossaryEnum.Distinct ∧
    ((demoBand 0).updateControls glossaryEnum 2).enabledFlags = (true, false, true) ∧
    (((demoBand 2).updateControls glossaryEnum 7).updateControls glossaryEnum 4).enabledFlags
      = (true, false, false) :=
  ⟨glossaryEnum_distinct,
   (updateControls_known_types glossaryEnum glossaryEnum_distinct (demoBand 0)).2.2.2.2.2.1,
   (updateControls_known_types glossaryEnum glossaryEnum_distinct
      ((demoBand 2).updateControls glossaryEnum 7)).2.2.1⟩

/-- C2: for every integer that is not the value of one of the eleven known filter types
(the `LastFilterID` sentinel and negative values included) `updateControls` takes the
`default` branch and enables all three controls. -/
theorem updateControls_unknown_type (E : FilterTypeEnum) (type : Int) (b : BandEditor)
    (h : ∀ k : FilterName, type ≠ E.value k) :
    (b.updateControls E type).enabledFlags = (true, true, true) :=
  enabledFlags_updateControls_unknown E type h b

/-- C2 at the sentinel `LastFilterID` of the glossary numbering and at a negative value, on
a stale panel. -/
theorem updateControls_unknown_type_witness :
    (∀ k : FilterName, glossaryEnum.LastFilterID ≠ glossaryEnum.value k) ∧
    ((demoBand 0).updateControls glossaryEnum glossaryEnum.LastFilterID).enabledFlags
      = (true, true, true) ∧
    (∀ k : FilterName, (-1 : Int) ≠ glossaryEnum.value k) ∧
    ((demoBand 0).updateControls glossaryEnum (-1)).enabledFlags = (true, true, true) :=
  ⟨fun k => by cases k <;> decide,
   updateControls_unknown_type glossaryEnum glossaryEnum.LastFilterID (demoBand 0)
     (fun k => by cases k <;> decide),
   fun k => by cases k <;> decide,
   updateControls_unknown_type glossaryEnum (-1) (demoBand 0)
     (fun k => by cases k <;> decide)⟩

/-! ## Claims on the change handler -/

theorem refresh_idem (p : Processor) (r : Rectangle) (i : Nat) (b : BandEditor) :
    refresh p r i (refresh p r i b) = refresh p r i b := by
  obtain ⟨h1, _, h3⟩ := updateControls_frame p.filterTypes (p.getFilterType i) b
  obtain ⟨k1, _, k3⟩ := updateControls_frame p.filterTypes (p.getFilterType i)
    (refresh p r i b)
  apply BandEditor.eq_of_fields
  · exact k1
  · exact enabledFlags_updateControls_indep _ _ _ _
  · rfl
  · exact k3

theorem enabledFlags_refresh (p : Processor) (r : Rectangle) (i : Nat) (b : BandEditor) :
    (refresh p r i b).enabledFlags =
      (b.updateControls p.filterTypes (p.getFilterType i)).enabledFlags := rfl

/-- C3: `changeListenerCallback` is idempotent on the curves and the flags. For every editor
state and every processor state the handler returns, and returns again when run on its own
result with the same processor state; the second run leaves the array of band panels (flags
and curves of every band) and the sum curve as the first run left them. -/
theorem changeListenerCallback_idempotent (p : Processor) (ed : Editor) :
    ∃ ed₁ ed₂, Editor.changeListenerCallback p ed = some ed₁ ∧
      Editor.changeListenerCallback p ed₁ = some ed₂ ∧
      ed₂.bandEditors = ed₁.bandEditors ∧
      ed₂.frequencyResponse = ed₁.frequencyResponse := by
  refine ⟨_, _, changeListenerCallback_eq p ed, changeListenerCallback_eq p _, ?_, rfl⟩
  simp only [rebuilt]
  rw [mapFrom_mapFrom]
  exact mapFrom_congr (fun j b => refresh_idem p ed.plotFrame j b) _ _

/-- C4: `changeListenerCallback` rebuilds every curve from an empty path. After it returns,
the plot frame is unchanged, band `i` holds what `createFrequencyPlot` leaves in an empty
path for `(i, plotFrame)`, the sum curve holds what the overload without index leaves in an
empty path for `plotFrame`, and any other editor state with the same plot frame and the
same number of panels ends with the same curves. -/
theorem changeListenerCallback_rebuilds_curves (p : Processor) (ed : Editor) :
    ∃ ed', Editor.changeListenerCallback p ed = some ed' ∧
      ed'.plotFrame = ed.plotFrame ∧
      ed'.bandEditors.length = ed.bandEditors.length ∧
      (∀ i, i < ed.bandEditors.length →
        (ed'.bandEditors[i]?).map BandEditor.frequencyResponse =
          some (p.createFrequencyPlotBand (Path.clear []) i ed.plotFrame)) ∧
      ed'.frequencyResponse = p.createFrequencyPlot (Path.clear []) ed.plotFrame ∧
      (∀ other : Editor, other.plotFrame = ed.plotFrame →
        other.bandEditors.length = ed.bandEditors.length →
        ∃ other', Editor.changeListenerCallback p other = some other' ∧
          other'.bandEditors.map BandEditor.frequencyResponse =
            ed'.bandEditors.map BandEditor.frequencyResponse ∧
          other'.frequencyResponse = ed'.frequencyResponse) := by
  refine ⟨_, changeListenerCallback_eq p ed, rfl, ?_, ?_, rfl, ?_⟩
  · simp [rebuilt, length_mapFrom]
  · intro i hi
    simp only [rebuilt, getElem?_mapFrom, List.getElem?_eq_getElem hi, Option.map_some',
      Nat.zero_add]
    rfl
  · intro other hp hl
    refine ⟨_, changeListenerCallback_eq p other, ?_, ?_⟩
    · apply List.ext_getElem?
      intro n
      simp only [rebuilt, List.getElem?_map, getElem?_mapFrom, hp, Nat.zero_add]
      by_cases hn : n < ed.bandEditors.length
      · rw [List.getElem?_eq_getElem hn, List.getElem?_eq_getElem (hl ▸ hn)]
        rfl
      · rw [List.getElem?_eq_none (Nat.le_of_not_lt hn),
          List.getElem?_eq_none (hl ▸ Nat.le_of_not_lt hn)]
    · simp only [rebuilt, hp]

/-- C4 on the example: the stale curve of band 1 is replaced by the plot of band 1. -/
theorem changeListenerCallback_rebuilds_curves_witness :
    ∃ ed', Editor.changeListenerCallback demoProcessor demoEditor = some ed' ∧
      (ed'.bandEditors[1]?).map BandEditor.frequencyResponse = some [(1, 828)] := by
  obtain ⟨ed', h, _, _, hc, _⟩ := changeListenerCallback_rebuilds_curves demoProcessor demoEditor
  exact ⟨ed', h, hc 1 (by decide)⟩

/-- C5: relevance is derived band by band. In an editor state whose flags agree with the
filter types the processor reports, changing the filter type of band `i` alone and running
`changeListenerCallback` leaves the (frequency, quality, gain) flags of every band `j ≠ i`
as they were; and `updateControls` leaves the index, the curve and the bounds of the panel
it is applied to untouched. -/
theorem relevance_band_independent (p : Processor) (ed : Editor) (i : Nat) (newType : Int)
    (hE : p.filterTypes.Distinct)
    (hInv : ∀ (j : Nat) (b : BandEditor), ed.bandEditors[j]? = some b →
      b.enabledFlags = applyRelevance p.filterTypes (p.getFilterType j)) :
    ∃ ed', Editor.changeListenerCallback
        { p with getFilterType := Function.update p.getFilterType i newType } ed = some ed' ∧
      ed'.bandEditors.length = ed.bandEditors.length ∧
      (∀ j, j ≠ i → (ed'.bandEditors[j]?).map BandEditor.enabledFlags =
        (ed.bandEditors[j]?).map BandEditor.enabledFlags) ∧
      (∀ (E : FilterTypeEnum) (type : Int) (b : BandEditor),
        (b.updateControls E type).index = b.index ∧
        (b.updateControls E type).frequencyResponse = b.frequencyResponse ∧
        (b.updateControls E type).bounds = b.bounds) := by
  refine ⟨_, changeListenerCallback_eq _ ed, ?_, ?_, updateControls_frame⟩
  · simp [rebuilt, length_mapFrom]
  · intro j hj
    simp only [rebuilt, getElem?_mapFrom, Nat.zero_add]
    cases hb : ed.bandEditors[j]? with
    | none => rfl
    | some b =>
      simp only [Option.map_some', enabledFlags_refresh, Function.update_noteq hj]
      rw [enabledFlags_updateControls hE, hInv j b hb]

/-- C5 on an example: the three panels show Notch, band 1 alone is switched to Peak, and
bands 0 and 2 keep their flags. -/
theorem relevance_band_independent_witness :
    ∃ ed', Editor.changeListenerCallback
        { demoProcessor with getFilterType := Function.update (fun _ => 6) 1 7 }
        { demoEditor with
          bandEditors := demoEditor.bandEditors.map (BandEditor.updateControls glossaryEnum 6) }
        = some ed' ∧
      (ed'.bandEditors[0]?).map BandEditor.enabledFlags = some (true, true, false) ∧
      (ed'.bandEditors[2]?).map BandEditor.enabledFlags = some (true, true, false) := by
  obtain ⟨ed', h, _, hf, _⟩ := relevance_band_independent
    { demoProcessor with getFilterType := fun _ => 6 }
    { demoEditor with
      bandEditors := demoEditor.bandEditors.map (BandEditor.updateControls glossaryEnum 6) }
    1 7 glossaryEnum_distinct (by
      intro j b h
      match j, h with
      | 0, h => cases h; rfl
      | 1, h => cases h; rfl
      | 2, h => cases h; rfl
      | _ + 3, h => simp [demoEditor] at h)
  exact ⟨ed', h, hf 0 (by decide), hf 2 (by decide)⟩

/-! ## Construction -/

theorem forLoop_construct (p : Processor) :
    ∀ (count i : Nat) (ed : Editor),
      forLoop (fun i ed =>
          some { ed with bandEditors := ed.bandEditors ++ [BandEditor.construct i p] })
        count i ed =
      some { ed with bandEditors :=
        ed.bandEditors ++ (List.range' i count).map fun k => BandEditor.construct k p }
  | 0, _, ed => by simp [forLoop]
  | count + 1, i, ed => by
    simp only [forLoop, Option.bind, forLoop_construct p count (i + 1)]
    simp [List.range'_succ]

theorem construct_eq (p : Processor) (self : Nat) :
    Editor.construct p self =
      some (p.addChangeListener self, rebuilt p (replot p) (laidOut (fresh p))) := by
  simp only [Editor.construct, forLoop_construct, bind, Option.bind, Editor.setSize]
  have h : ¬ ((0 : Nat) = 840 ∧ (0 : Nat) = 500) := by decide
  simp only [h, if_false, List.nil_append]
  rw [resized_eq]
  rfl

theorem layoutBands_getElem?_map {α : Type} (f : BandEditor → α)
    (hf : ∀ (b : BandEditor) (r : Rectangle), f { b with bounds := r } = f b) (width : Int) :
    ∀ (bands : List BandEditor) (space : Rectangle) (j : Nat),
      ((Editor.layoutBands width space bands).2[j]?).map f = (bands[j]?).map f
  | [], _, _ => by simp [Editor.layoutBands]
  | b :: bands, space, 0 => by simp [Editor.layoutBands, hf]
  | b :: bands, space, j + 1 => by
    simpa [Editor.layoutBands] using layoutBands_getElem?_map f hf width bands _ j

theorem laidOut_getElem?_map {α : Type} (f : BandEditor → α)
    (hf : ∀ (b : BandEditor) (r : Rectangle), f { b with bounds := r } = f b)
    (ed : Editor) (j : Nat) :
    ((laidOut ed).bandEditors[j]?).map f = (ed.bandEditors[j]?).map f := by
  simp only [laidOut]
  exact layoutBands_getElem?_map f hf _ _ _ j

theorem fresh_getElem? (p : Processor) (i : Nat) (hi : i < p.numBands) :
    (fresh p).bandEditors[i]? = some (BandEditor.construct i p) := by
  simp [fresh, List.getElem?_map, List.getElem?_range' 0 1 hi]

theorem enabledFlags_construct {p : Processor} (hE : p.filterTypes.Distinct) (i : Nat) :
    (BandEditor.construct i p).enabledFlags =
      applyRelevance p.filterTypes (p.getFilterType i) := by
  simp only [BandEditor.construct]
  exact enabledFlags_updateControls hE _ _

/-- C6: the flags of a band always show the relevance of the filter type the processor
reports for it. This holds for a `BandEditor` right after its construction for index `i`,
for every band of an editor right after the editor's construction, and for every band right
after `changeListenerCallback` returns, whatever filter types the processor reports. -/
theorem relevance_follows_filter_type (p : Processor) (hE : p.filterTypes.Distinct) :
    (∀ i : Nat, (BandEditor.construct i p).enabledFlags =
      applyRelevance p.filterTypes (p.getFilterType i)) ∧
    (∀ self : Nat, ∃ p' ed, Editor.construct p self = some (p', ed) ∧
      ∀ i, i < p.numBands → (ed.bandEditors[i]?).map BandEditor.enabledFlags =
        some (applyRelevance p.filterTypes (p.getFilterType i))) ∧
    (∀ ed : Editor, ∃ ed', Editor.changeListenerCallback p ed = some ed' ∧
      ∀ i, i < ed.bandEditors.length → (ed'.bandEditors[i]?).map BandEditor.enabledFlags =
        some (applyRelevance p.filterTypes (p.getFilterType i))) := by
  refine ⟨enabledFlags_construct hE, ?_, ?_⟩
  · intro self
    refine ⟨_, _, construct_eq p self, ?_⟩
    intro i hi
    have h1 := laidOut_getElem?_map BandEditor.enabledFlags (fun _ _ => rfl) (fresh p) i
    rw [fresh_getElem? p i hi] at h1
    simp only [rebuilt, getElem?_mapFrom, Nat.zero_add, Option.map_map]
    have h2 : BandEditor.enabledFlags ∘ replot p (laidOut (fresh p)).plotFrame i =
        BandEditor.enabledFlags := rfl
    rw [h2, h1, Option.map_some', enabledFlags_construct hE]
  · intro ed
    refine ⟨_, changeListenerCallback_eq p ed, ?_⟩
    intro i hi
    simp only [rebuilt, getElem?_mapFrom, Nat.zero_add, List.getElem?_eq_getElem hi,
      Option.map_some', enabledFlags_refresh]
    rw [enabledFlags_updateControls hE]

/-- C6 on the example processor (LowShelf, Peak, AllPass): band 1 of a new editor shows the
flags of Peak, and the stale band 0 shows the flags of LowShelf after a notification. -/
theorem relevance_follows_filter_type_witness :
    glossaryEnum.Distinct ∧
    (∃ p' ed, Editor.construct demoProcessor 7 = some (p', ed) ∧
      (ed.bandEditors[1]?).map BandEditor.enabledFlags = some (true, true, true)) ∧
    (∃ ed', Editor.changeListenerCallback demoProcessor demoEditor = some ed' ∧
      (ed'.bandEditors[0]?).map BandEditor.enabledFlags = some (true, false, true)) := by
  obtain ⟨_, hc, hn⟩ := relevance_follows_filter_type demoProcessor glossaryEnum_distinct
  obtain ⟨p', ed, h1, h2⟩ := hc 7
  obtain ⟨ed', h3, h4⟩ := hn demoEditor
  exact ⟨glossaryEnum_distinct, ⟨p', ed, h1, h2 1 (by decide)⟩, ⟨ed', h3, h4 0 (by decide)⟩⟩

/-! ## Claims on the layout -/

/-- C7: one call of `resized` invokes the curve provider once per band, in index order and
each time on that band's cleared curve, and then once for the sum curve: `N + 1` calls for
`N` panels, all with the plot frame that is left after the bottom strip is removed and both
reductions by 3 are applied. Each band ends with the curve its call produced, and the
number of panels is unchanged. -/
theorem resized_plot_calls (p : Processor) (ed : Editor) :
    ∃ ed', Editor.resized p ed = some ed' ∧
      ed'.plotFrame = (((ed.getLocalBounds.reduced 3 3).removeFromBottom
        (Int.tdiv ed.height 2)).2).reduced 3 3 ∧
      ed'.plotCalls = ed.plotCalls ++
        ((List.range ed.bandEditors.length).map
            (fun i => PlotCall.mk (some i) (Path.clear []) ed'.plotFrame) ++
          [PlotCall.mk none (Path.clear []) ed'.plotFrame]) ∧
      ((List.range ed.bandEditors.length).map
            (fun i => PlotCall.mk (some i) (Path.clear []) ed'.plotFrame) ++
          [PlotCall.mk none (Path.clear []) ed'.plotFrame]).length = ed.bandEditors.length + 1 ∧
      (∀ i, i < ed.bandEditors.length →
        (ed'.bandEditors[i]?).map BandEditor.frequencyResponse =
          some (p.createFrequencyPlotBand (Path.clear []) i ed'.plotFrame)) ∧
      ed'.frequencyResponse = p.createFrequencyPlot (Path.clear []) ed'.plotFrame ∧
      ed'.bandEditors.length = ed.bandEditors.length := by
  refine ⟨_, resized_eq p ed, rfl, ?_, ?_, ?_, rfl, ?_⟩
  · simp only [rebuilt, laidOut_length, bandCalls, List.range_eq_range', List.append_assoc,
      Path.clear]
    rfl
  · simp
  · intro i hi
    have hi' : i < (laidOut ed).bandEditors.length := by rw [laidOut_length]; exact hi
    simp only [rebuilt, getElem?_mapFrom, Nat.zero_add, List.getElem?_eq_getElem hi',
      Option.map_some']
    rfl
  · simp [rebuilt, length_mapFrom, laidOut_length]

/-- C7 on the example: three panels at 840 x 500 give four calls, all on the region
`(6, 6, 828, 238)`. -/
theorem resized_plot_calls_witness :
    ∃ ed', Editor.resized demoProcessor demoEditor = some ed' ∧
      ed'.plotFrame = ⟨6, 6, 828, 238⟩ ∧
      (ed'.bandEditors[2]?).map BandEditor.frequencyResponse = some [(2, 828)] := by
  obtain ⟨ed', h, hp, _, _, hc, _⟩ := resized_plot_calls demoProcessor demoEditor
  refine ⟨ed', h, ?_, ?_⟩
  · rw [hp]; decide
  · rw [hc 2 (by decide), hp]; decide

/-! ## Listener registration -/

theorem OthersStep.nodup {self : Nat} {p q : Processor} (h : OthersStep self p q)
    (hp : p.changeListeners.Nodup) : q.changeListeners.Nodup := by
  cases h with
  | add l hl =>
    simp only [Processor.addChangeListener]
    split
    · exact hp
    · rename_i hmem
      exact List.Nodup.append hp (List.nodup_singleton l) (by simpa using hmem)
  | remove l hl => exact hp.erase l
  | other _ hq => rw [hq]; exact hp

theorem OthersStep.mem_iff {self : Nat} {p q : Processor} (h : OthersStep self p q)
    (hp : p.changeListeners.Nodup) : self ∈ q.changeListeners ↔ self ∈ p.changeListeners := by
  cases h with
  | add l hl =>
    simp only [Processor.addChangeListener]
    split
    · rfl
    · simp [Ne.symm hl]
  | remove l hl =>
    simp only [Processor.removeChangeListener]
    rw [hp.mem_erase_iff]
    simp [Ne.symm hl]
  | other _ hq => rw [hq]

theorem othersSteps_invariant {self : Nat} {p q : Processor}
    (h : Relation.ReflTransGen (OthersStep self) p q) (hp : p.changeListeners.Nodup) :
    q.changeListeners.Nodup ∧ (self ∈ q.changeListeners ↔ self ∈ p.changeListeners) := by
  induction h with
  | refl => exact ⟨hp, Iff.rfl⟩
  | tail _ hstep ih => exact ⟨hstep.nodup ih.1, (hstep.mem_iff ih.1).trans ih.2⟩

/-- C8: the constructor ends by registering the editor on the processor and the destructor
removes it. With a broadcaster that delivers a change message to the listeners registered
at delivery time, the editor is among the notified listeners from its construction until
its destructor runs, and is never notified afterwards, whatever other listeners come and go
and however the processor changes in between. -/
theorem deregistered_after_teardown (p : Processor) (self : Nat)
    (hp : p.changeListeners.Nodup) :
    ∃ p₁ ed, Editor.construct p self = some (p₁, ed) ∧
      p₁ = p.addChangeListener self ∧
      ∀ q₁, Relation.ReflTransGen (OthersStep self) p₁ q₁ →
        self ∈ q₁.notifiedListeners ∧
        ∀ q₂, Relation.ReflTransGen (OthersStep self) (Editor.destruct q₁ self) q₂ →
          self ∉ q₂.notifiedListeners := by
  refine ⟨_, _, construct_eq p self, rfl, ?_⟩
  have hreg : self ∈ (p.addChangeListener self).changeListeners := by
    simp only [Processor.addChangeListener]
    split
    · assumption
    · simp
  have hnd : (p.addChangeListener self).changeListeners.Nodup := by
    simp only [Processor.addChangeListener]
    split
    · exact hp
    · rename_i hmem
      exact List.Nodup.append hp (List.nodup_singleton self) (by simpa using hmem)
  intro q₁ h₁
  obtain ⟨hq₁, hmem₁⟩ := othersSteps_invariant h₁ hnd
  refine ⟨hmem₁.2 hreg, ?_⟩
  intro q₂ h₂
  have hd : (Editor.destruct q₁ self).changeListeners.Nodup := hq₁.erase self
  have hout : self ∉ (Editor.destruct q₁ self).changeListeners := by
    simp only [Editor.destruct, Processor.removeChangeListener]
    rw [hq₁.mem_erase_iff]
    simp
  obtain ⟨_, hmem₂⟩ := othersSteps_invariant h₂ hd
  exact fun h => hout (hmem₂.1 h)

/-- C8 on the example: editor 7 is constructed on a processor with listeners 1 and 2, is
notified while it lives and is not notified once destroyed. -/
theorem deregistered_after_teardown_witness :
    demoProcessor.changeListeners.Nodup ∧
    ∃ p₁ ed, Editor.construct demoProcessor 7 = some (p₁, ed) ∧
      7 ∈ p₁.notifiedListeners ∧ 7 ∉ (Editor.destruct p₁ 7).notifiedListeners := by
  have hp : demoProcessor.changeListeners.Nodup := by decide
  obtain ⟨p₁, ed, h, _, hq⟩ := deregistered_after_teardown demoProcessor 7 hp
  obtain ⟨hin, hout⟩ := hq p₁ Relation.ReflTransGen.refl
  exact ⟨hp, p₁, ed, h, hin, hout _ Relation.ReflTransGen.refl⟩

/-! ## Band count -/

theorem resized_length (p : Processor) (ed ed' : Editor) (h : Editor.resized p ed = some ed') :
    ed'.bandEditors.length = ed.bandEditors.length := by
  rw [resized_eq] at h
  cases h
  simp [rebuilt, length_mapFrom, laidOut_length]

theorem changeListenerCallback_length (p : Processor) (ed ed' : Editor)
    (h : Editor.changeListenerCallback p ed = some ed') :
    ed'.bandEditors.length = ed.bandEditors.length := by
  rw [changeListenerCallback_eq] at h
  cases h
  simp [rebuilt, length_mapFrom]

theorem fresh_length (p : Processor) : (fresh p).bandEditors.length = p.numBands := by
  simp [fresh]

theorem construct_length (p p' : Processor) (self : Nat) (ed : Editor)
    (h : Editor.construct p self = some (p', ed)) : ed.bandEditors.length = p.numBands := by
  rw [construct_eq] at h
  cases h
  simp [rebuilt, length_mapFrom, laidOut_length, fresh_length]

theorem reachable_length {N : Nat} {ed : Editor} (h : Reachable N ed) :
    ed.bandEditors.length = N := by
  induction h with
  | construct p p' self ed hN hc => rw [construct_length p p' self ed hc, hN]
  | setSize p w h ed ed' _ _ hs ih =>
    unfold Editor.setSize at hs
    split at hs
    · cases hs; exact ih
    · rw [resized_length p _ ed' hs]; exact ih
  | change p ed ed' _ _ hc ih => rw [changeListenerCallback_length p ed ed' hc]; exact ih

theorem forLoop_paint (ed : Editor) :
    ∀ (count i : Nat) (g : List Editor.DrawCommand), i + count ≤ ed.bandEditors.length →
      ∃ g', forLoop (fun i g => do
          let band ← ed.bandEditors[i]?
          some (g ++ [Editor.DrawCommand.strokeBand i band.frequencyResponse])) count i g
        = some g'
  | 0, _, g, _ => ⟨g, rfl⟩
  | count + 1, i, g, h => by
    have hi : i < ed.bandEditors.length := by omega
    simp only [forLoop, List.getElem?_eq_getElem hi, bind, Option.bind]
    exact forLoop_paint ed count (i + 1) _ (by omega)

theorem paint_isSome (p : Processor) (ed : Editor) (h : p.numBands ≤ ed.bandEditors.length) :
    ∃ g, Editor.paint p ed = some g := by
  obtain ⟨g', hg⟩ := forLoop_paint ed p.numBands 0 [Editor.DrawCommand.fillAll] (by omega)
  refine ⟨g' ++ [.strokeSum ed.frequencyResponse] ++ [.drawLogo ed.branding], ?_⟩
  have h : Editor.paint p ed =
      (forLoop (fun i g => do
          let band ← ed.bandEditors[i]?
          some (g ++ [Editor.DrawCommand.strokeBand i band.frequencyResponse]))
        p.numBands 0 [Editor.DrawCommand.fillAll]).bind
        fun g => some (g ++ [.strokeSum ed.frequencyResponse] ++ [.drawLogo ed.branding]) := rfl
  rw [h, hg]
  rfl

/-- C9: the constructor creates exactly `numBands` band panels, the `k`-th carrying index
`k`, and one attachment for the one output slider. `resized` and `changeListenerCallback`
keep the number of panels, and `paint` writes no editor state, so every reachable state has
exactly `numBands` panels; there `resized`, `changeListenerCallback` and `paint` all return,
which they do only if every `getUnchecked (i)` they make has `i` inside the array. -/
theorem band_count_invariant (N : Nat) :
    (∀ (p : Processor) (self : Nat), p.numBands = N →
      ∃ p' ed, Editor.construct p self = some (p', ed) ∧
        ed.bandEditors.length = N ∧
        ed.bandEditors.map BandEditor.index = List.range N ∧
        ed.attachments = [p.paramOutput]) ∧
    (∀ (p : Processor) (ed ed' : Editor), Editor.resized p ed = some ed' →
      ed'.bandEditors.length = ed.bandEditors.length) ∧
    (∀ (p : Processor) (ed ed' : Editor), Editor.changeListenerCallback p ed = some ed' →
      ed'.bandEditors.length = ed.bandEditors.length) ∧
    (∀ ed : Editor, Reachable N ed →
      ed.bandEditors.length = N ∧
      ∀ p : Processor, p.numBands = N →
        (∃ ed', Editor.resized p ed = some ed') ∧
        (∃ ed', Editor.changeListenerCallback p ed = some ed') ∧
        (∃ g, Editor.paint p ed = some g)) := by
  refine ⟨?_, resized_length, changeListenerCallback_length, ?_⟩
  · intro p self hN
    refine ⟨_, _, construct_eq p self, ?_, ?_, rfl⟩
    · rw [construct_length p _ self _ (construct_eq p self), hN]
    · apply List.ext_getElem?
      intro k
      simp only [rebuilt, List.getElem?_map, getElem?_mapFrom, Nat.zero_add, Option.map_map]
      have h2 : BandEditor.index ∘ replot p (laidOut (fresh p)).plotFrame k =
          BandEditor.index := rfl
      rw [h2, laidOut_getElem?_map BandEditor.index (fun _ _ => rfl) (fresh p) k]
      by_cases hk : k < N
      · rw [fresh_getElem? p k (hN ▸ hk), List.getElem?_range hk]
        have h3 := (updateControls_frame p.filterTypes (p.getFilterType k)
          { index := k, frequency := {}, quality := {}, gain := {},
            frequencyResponse := [], bounds := ⟨0, 0, 0, 0⟩ }).1
        simpa [BandEditor.construct] using h3
      · have hk' : N ≤ k := Nat.le_of_not_lt hk
        rw [List.getElem?_eq_none (by simpa [fresh_length, hN] using hk'),
          List.getElem?_eq_none (by simpa using hk')]
        rfl
  · intro ed hr
    have hl := reachable_length hr
    refine ⟨hl, fun p hp => ⟨⟨_, resized_eq p ed⟩, ⟨_, changeListenerCallback_eq p ed⟩, ?_⟩⟩
    exact paint_isSome p ed (by omega)

/-- C9 on the example: the editor constructed for the three-band processor is reachable,
has three panels with indices 0, 1, 2, and `paint` returns on it. -/
theorem band_count_invariant_witness :
    ∃ p' ed, Editor.construct demoProcessor 7 = some (p', ed) ∧
      Reachable 3 ed ∧ ed.bandEditors.length = 3 ∧
      ed.bandEditors.map BandEditor.index = [0, 1, 2] ∧
      ∃ g, Editor.paint demoProcessor ed = some g := by
  obtain ⟨hc, _, _, hr⟩ := band_count_invariant 3
  obtain ⟨p', ed, h, hl, hi, _⟩ := hc demoProcessor 7 rfl
  have hreach : Reachable 3 ed := Reachable.construct demoProcessor p' 7 ed rfl h
  exact ⟨p', ed, h, hreach, hl, hi, ((hr ed hreach).2 demoProcessor rfl).2.2⟩

/-! ## Division of the bottom strip -/

/-! ## Single-precision division below `2^24` -/

theorem roundHalfEven_cases (n d : Nat) :
    roundHalfEven n d = n / d ∨ (roundHalfEven n d = n / d + 1 ∧ d ≤ 2 * (n % d)) := by
  unfold roundHalfEven
  simp only
  split_ifs <;> first | (left; rfl) | (right; exact ⟨rfl, by omega⟩)

theorem roundHalfEven_one (n : Nat) : roundHalfEven n 1 = n := by
  simp [roundHalfEven, Nat.mod_one]

theorem div_le_roundHalfEven (n d : Nat) : n / d ≤ roundHalfEven n d := by
  rcases roundHalfEven_cases n d with h | ⟨h, _⟩ <;> omega

theorem shiftUp_spec (b : Nat) :
    ∀ fuel a : Nat, 2 ^ 23 * b ≤ a * 2 ^ fuel → 2 ^ 23 * b ≤ a * 2 ^ shiftUp b fuel a
  | 0, a, h => by simpa [shiftUp] using h
  | fuel + 1, a, h => by
    unfold shiftUp
    split
    · simpa
    · have e : ∀ k : Nat, a * 2 ^ (k + 1) = 2 * a * 2 ^ k := fun k => by
        rw [pow_succ 2 k]; ring
      have ih := shiftUp_spec b fuel (2 * a) (by rw [← e]; exact h)
      rw [e]
      exact ih

theorem shiftDown_of_lt (a fuel b : Nat) (h : a < 2 ^ 24 * b) : shiftDown a fuel b = 0 := by
  cases fuel with
  | zero => rfl
  | succ fuel => simp only [shiftDown, h, if_true]

theorem shiftDown_spec (a : Nat) :
    ∀ fuel b : Nat, 2 ^ 23 * b ≤ a → 2 ^ 23 * (b * 2 ^ shiftDown a fuel b) ≤ a
  | 0, b, h => by simpa [shiftDown] using h
  | fuel + 1, b, h => by
    unfold shiftDown
    split
    · simpa using h
    · rename_i hlt
      have ih := shiftDown_spec a fuel (2 * b) (by omega)
      have e : ∀ k : Nat, b * 2 ^ (k + 1) = 2 * b * 2 ^ k := fun k => by
        rw [pow_succ 2 k]; ring
      rw [e]
      exact ih

theorem shiftDown_pos (a fuel b : Nat) (h : ¬ a < 2 ^ 24 * b) :
    0 < shiftDown a (fuel + 1) b := by
  simp only [shiftDown, h, if_false]
  omega

theorem intToFloat_of_lt {n : Nat} (h : n < 2 ^ 24) : intToFloat n = n := by
  simp [intToFloat, shiftDown_of_lt n n 1 (by omega), roundHalfEven_one]

theorem le_intToFloat {n : Nat} (h : 2 ^ 24 ≤ n) : 2 ^ 24 ≤ intToFloat n := by
  obtain ⟨m, rfl⟩ : ∃ m, n = m + 1 := ⟨n - 1, by omega⟩
  have hpos := shiftDown_pos (m + 1) m 1 (by omega)
  have hspec := shiftDown_spec (m + 1) (m + 1) 1 (by omega)
  simp only [intToFloat]
  generalize shiftDown (m + 1) (m + 1) 1 = s at hpos hspec ⊢
  have h1 : 2 ^ 23 ≤ (m + 1) / 2 ^ s := by
    rw [Nat.le_div_iff_mul_le (by positivity)]
    simpa using hspec
  have h2 := div_le_roundHalfEven (m + 1) (2 ^ s)
  have h3 : 2 ≤ 2 ^ s := by
    calc 2 = 2 ^ 1 := rfl
      _ ≤ 2 ^ s := Nat.pow_le_pow_right (by norm_num) hpos
  calc 2 ^ 24 = 2 ^ 23 * 2 := by norm_num
    _ ≤ roundHalfEven (m + 1) (2 ^ s) * 2 ^ s := Nat.mul_le_mul (le_trans h1 h2) h3

theorem floatDivTrunc_of_lt {a b : Nat} (ha : a < 2 ^ 24) (hb : 0 < b) :
    floatDivTrunc a b = a / b := by
  unfold floatDivTrunc
  by_cases ha0 : a = 0
  · simp [ha0]
  have hb0 : b ≠ 0 := by omega
  simp only [ha0, hb0, or_self, if_false]
  split
  · rename_i hlt
    have hfuel : 2 ^ 23 * b ≤ a * 2 ^ (23 + b) := by
      have h1 : b ≤ 2 ^ b := le_of_lt (Nat.lt_two_pow b)
      have h2 : 1 ≤ a := by omega
      calc 2 ^ 23 * b ≤ 2 ^ 23 * 2 ^ b := Nat.mul_le_mul_left _ h1
        _ = 1 * 2 ^ (23 + b) := by rw [pow_add]; ring
        _ ≤ a * 2 ^ (23 + b) := Nat.mul_le_mul_right _ h2
    have hspec := shiftUp_spec b (23 + b) a hfuel
    generalize shiftUp b (23 + b) a = t at hspec ⊢
    have hT : 0 < 2 ^ t := by positivity
    generalize 2 ^ t = T at hspec hT ⊢
    have hBT : b < 2 * T := by nlinarith
    have hq := Nat.div_add_mod a b
    have hr := Nat.mod_lt a hb
    have hX := Nat.div_add_mod (a * T) b
    have hXr := Nat.mod_lt (a * T) hb
    set q0 := a / b
    set r0 := a % b
    set v := a * T / b
    set w := a * T % b
    apply Nat.div_eq_of_lt_le
    · -- q0 * T ≤ round
      have : q0 * T ≤ v := by
        rw [Nat.le_div_iff_mul_le hb]
        nlinarith
      exact le_trans this (div_le_roundHalfEven _ _)
    · have hv : v < (q0 + 1) * T := by
        rw [Nat.div_lt_iff_lt_mul hb]
        nlinarith
      rcases roundHalfEven_cases (a * T) b with h | ⟨h, h2⟩
      · rw [h]; exact hv
      · rw [h]
        by_contra hcon
        have hcon' : (q0 + 1) * T ≤ v + 1 := by omega
        have h5 : b * ((q0 + 1) * T) ≤ b * (v + 1) := Nat.mul_le_mul_left _ hcon'
        have h6 : (a + 1) * T ≤ (b * (q0 + 1)) * T := Nat.mul_le_mul_right _ (by nlinarith)
        have h2' : b ≤ 2 * w := h2
        nlinarith
  · rename_i hge
    have hb1 : b = 1 := by omega
    subst hb1
    have hs : shiftDown a a 1 = 0 := shiftDown_of_lt a a 1 (by omega)
    simp [hs, roundHalfEven_one]

theorem truncatedFloatQuotient_of_lt {w : Int} {d : Nat} (h0 : 0 ≤ w) (hw : w < 2 ^ 24)
    (hd : 0 < d) : truncatedFloatQuotient w d = w / (d : Int) := by
  obtain ⟨n, rfl⟩ := Int.eq_ofNat_of_zero_le h0
  have hn : n < 2 ^ 24 := by exact_mod_cast hw
  unfold truncatedFloatQuotient
  rw [Int.natAbs_ofNat, intToFloat_of_lt hn]
  by_cases hn0 : n = 0
  · subst hn0; simp
  have hs : (n : Int).sign = 1 := Int.sign_eq_one_of_pos (by exact_mod_cast Nat.pos_of_ne_zero hn0)
  rw [hs, one_mul]
  by_cases hdl : d < 2 ^ 24
  · rw [intToFloat_of_lt hdl, floatDivTrunc_of_lt hn hd]
    exact Int.natCast_div n d
  · have hbig := le_intToFloat (Nat.le_of_not_lt hdl)
    rw [floatDivTrunc_of_lt hn (by omega), Nat.div_eq_of_lt (by omega)]
    rw [← Int.natCast_div, Nat.div_eq_of_lt (by omega)]

theorem layoutBands_eq (width : Int) (h0 : 0 ≤ width) :
    ∀ (bands : List BandEditor) (space : Rectangle) (i : Nat) (x0 : Int),
      space.x = x0 + i * width → bands.length * width ≤ space.w →
      Editor.layoutBands width space bands =
        (⟨space.x + bands.length * width, space.y, space.w - bands.length * width, space.h⟩,
         mapFrom (placeAt x0 space.y width space.h) i bands)
  | [], space, i, x0, _, _ => by simp [Editor.layoutBands, mapFrom]
  | b :: bands, space, i, x0, hx, hw => by
    have hlen : (0 : Int) ≤ bands.length * width :=
      mul_nonneg (Int.ofNat_nonneg _) h0
    have hw' : (bands.length : Int) * width + width ≤ space.w := by
      have : ((b :: bands).length : Int) = bands.length + 1 := by simp
      rw [this] at hw
      linarith
    have hmin : min width space.w = width := min_eq_left (by linarith)
    have ih := layoutBands_eq width h0 bands
      ⟨space.x + width, space.y, space.w - width, space.h⟩ (i + 1) x0
      (by simp only [hx]; push_cast; ring) (by simp only; linarith)
    have hrem : space.removeFromLeft width =
        (⟨space.x, space.y, width, space.h⟩,
         ⟨space.x + width, space.y, space.w - width, space.h⟩) := by
      simp only [Rectangle.removeFromLeft, hmin]
    have hstep : Editor.layoutBands width space (b :: bands) =
        ((Editor.layoutBands width (space.removeFromLeft width).2 bands).1,
         { b with bounds := (space.removeFromLeft width).1 } ::
           (Editor.layoutBands width (space.removeFromLeft width).2 bands).2) := rfl
    rw [hstep, hrem]
    simp only [ih, mapFrom, placeAt, List.length_cons, Nat.cast_add, Nat.cast_one,
      Prod.mk.injEq, Rectangle.mk.injEq, List.cons.injEq, BandEditor.mk.injEq, and_true,
      true_and]
    refine ⟨⟨by ring, by ring⟩, hx⟩

theorem bottomStrip_fields (ed : Editor) :
    (bottomStrip ed).x = 3 ∧ (bottomStrip ed).w = max 0 ((ed.width : Int) - 6) := by
  simp only [bottomStrip, Rectangle.removeFromBottom, Rectangle.reduced, Rectangle.expanded,
    Editor.getLocalBounds]
  constructor
  · norm_num
  · congr 1

/-- C10, as the code has it: when the bottom strip is narrower than `2^24` pixels, every
band panel receives the width of the strip divided by `N + 1` and rounded down, the panels
are laid out left to right from the left edge of the strip without gap or overlap, and the
output frame starts where the last panel ends and receives all the width that is left, so
that the columns cover the strip. The frame is as wide as a panel plus the remainder of the
division: the widths are equal exactly when `N + 1` divides the width of the strip. -/
theorem resized_divides_strip (p : Processor) (ed : Editor)
    (hnarrow : (bottomStrip ed).w < 2 ^ 24) :
    ∃ ed', Editor.resized p ed = some ed' ∧
      (bottomStrip ed).x = 3 ∧ (bottomStrip ed).w = max 0 ((ed.width : Int) - 6) ∧
      (∀ k, k < ed.bandEditors.length →
        (ed'.bandEditors[k]?).map BandEditor.bounds =
          some ⟨(bottomStrip ed).x + k * ((bottomStrip ed).w / (ed.bandEditors.length + 1)),
                (bottomStrip ed).y,
                (bottomStrip ed).w / (ed.bandEditors.length + 1),
                (bottomStrip ed).h⟩) ∧
      ed'.frame.x = (bottomStrip ed).x +
        ed.bandEditors.length * ((bottomStrip ed).w / (ed.bandEditors.length + 1)) ∧
      ed'.frame.getWidth = (bottomStrip ed).w / (ed.bandEditors.length + 1) +
        (bottomStrip ed).w % (ed.bandEditors.length + 1) ∧
      ed'.frame.getRight = (bottomStrip ed).getRight ∧
      (ed'.frame.getWidth = (bottomStrip ed).w / (ed.bandEditors.length + 1) ↔
        ((ed.bandEditors.length : Int) + 1) ∣ (bottomStrip ed).w) := by
  obtain ⟨hx, hwid⟩ := bottomStrip_fields ed
  have hW : 0 ≤ (bottomStrip ed).w := by rw [hwid]; exact le_max_left _ _
  have hN : (0 : Int) < ed.bandEditors.length + 1 := by positivity
  have htdiv : truncatedFloatQuotient (bottomStrip ed).getWidth (ed.bandEditors.length + 1) =
      (bottomStrip ed).w / (ed.bandEditors.length + 1) := by
    have h := truncatedFloatQuotient_of_lt hW hnarrow (Nat.succ_pos ed.bandEditors.length)
    rw [Rectangle.getWidth, h]
    push_cast
    rfl
  have hbw : 0 ≤ (bottomStrip ed).w / ((ed.bandEditors.length : Int) + 1) :=
    Int.ediv_nonneg hW (le_of_lt hN)
  have hdm := Int.ediv_add_emod (bottomStrip ed).w ((ed.bandEditors.length : Int) + 1)
  have hmod := Int.emod_nonneg (bottomStrip ed).w (ne_of_gt hN)
  have hfit : (ed.bandEditors.length : Int) *
      ((bottomStrip ed).w / ((ed.bandEditors.length : Int) + 1)) ≤ (bottomStrip ed).w := by
    nlinarith
  have hlay := layoutBands_eq _ hbw ed.bandEditors (bottomStrip ed) 0 (bottomStrip ed).x
    (by simp) hfit
  have hbands : (laidOut ed).bandEditors =
      mapFrom (placeAt (bottomStrip ed).x (bottomStrip ed).y
        ((bottomStrip ed).w / (ed.bandEditors.length + 1)) (bottomStrip ed).h) 0
        ed.bandEditors := by
    have : (laidOut ed).bandEditors = (Editor.layoutBands
        (truncatedFloatQuotient (bottomStrip ed).getWidth (ed.bandEditors.length + 1))
        (bottomStrip ed) ed.bandEditors).2 := rfl
    rw [this, htdiv, hlay]
  have hframe : (laidOut ed).frame = ((Editor.layoutBands
        (truncatedFloatQuotient (bottomStrip ed).getWidth (ed.bandEditors.length + 1))
        (bottomStrip ed) ed.bandEditors).1.removeFromTop
          (Int.tdiv (Editor.layoutBands
            (truncatedFloatQuotient (bottomStrip ed).getWidth (ed.bandEditors.length + 1))
            (bottomStrip ed) ed.bandEditors).1.getHeight 2)).1 := rfl
  rw [htdiv, hlay] at hframe
  have hfx : (laidOut ed).frame.x = (bottomStrip ed).x +
      ed.bandEditors.length * ((bottomStrip ed).w / (ed.bandEditors.length + 1)) := by
    rw [hframe]; rfl
  have hfw : (laidOut ed).frame.w = (bottomStrip ed).w -
      ed.bandEditors.length * ((bottomStrip ed).w / (ed.bandEditors.length + 1)) := by
    rw [hframe]; rfl
  have hfw' : (laidOut ed).frame.w = (bottomStrip ed).w / (ed.bandEditors.length + 1) +
      (bottomStrip ed).w % (ed.bandEditors.length + 1) := by
    rw [hfw]; linarith
  refine ⟨_, resized_eq p ed, hx, hwid, ?_, hfx, hfw', ?_, ?_⟩
  · intro k hk
    simp only [rebuilt, hbands, getElem?_mapFrom, Nat.zero_add, List.getElem?_eq_getElem hk,
      Option.map_some']
    rfl
  · show (laidOut ed).frame.x + (laidOut ed).frame.w = (bottomStrip ed).x + (bottomStrip ed).w
    rw [hfx, hfw]; ring
  · show (laidOut ed).frame.w = _ ↔ _
    rw [hfw', Int.dvd_iff_emod_eq_zero]
    constructor
    · intro h; linarith
    · intro h; rw [h]; ring

/-- C10 on the example: three panels in a strip of 834 pixels are 208 wide, the frame 210. -/
theorem resized_divides_strip_witness :
    (bottomStrip demoEditor).w < 2 ^ 24 ∧
    ∃ ed', Editor.resized demoProcessor demoEditor = some ed' ∧
      (ed'.bandEditors[1]?).map BandEditor.bounds = some ⟨211, 247, 208, 250⟩ ∧
      ed'.frame.getWidth = 210 := by
  have hn : (bottomStrip demoEditor).w < 2 ^ 24 := by decide
  obtain ⟨ed', h, _, _, hb, _, hf, _⟩ :=
    resized_divides_strip demoProcessor demoEditor (by decide)
  refine ⟨hn, ed', h, ?_, ?_⟩
  · rw [hb 1 (by decide)]; decide
  · rw [hf]; decide

/-- C10 as stated fails: at 840 x 500 with three band panels the panels are 208 pixels wide
and the output frame 210, so the columns do not all receive the same width. -/
theorem even_division_counterexample :
    ∃ ed', Editor.resized demoProcessor demoEditor = some ed' ∧
      ed'.bandEditors.map (fun b => b.bounds.getWidth) = [208, 208, 208] ∧
      ed'.frame.getWidth = 210 ∧
      ¬ (∀ b ∈ ed'.bandEditors, b.bounds.getWidth = ed'.frame.getWidth) := by
  refine ⟨_, resized_eq demoProcessor demoEditor, ?_, ?_, ?_⟩
  · decide
  · decide
  · decide

/-- Beyond `2^24` the rounding of the `float` quotient shows: in a strip of 16777219 pixels
three panels receive 4194305 pixels each, one more than the quotient rounded down, and
the frame the 4194304 that are left. -/
theorem resized_beyond_single_precision :
    (bottomStrip wideEditor).w = 16777219 ∧
    ∃ ed', Editor.resized demoProcessor wideEditor = some ed' ∧
      ed'.bandEditors.map (fun b => b.bounds.getWidth) = [4194305, 4194305, 4194305] ∧
      ed'.frame.getWidth = 4194304 := by
  refine ⟨by decide, _, resized_eq demoProcessor wideEditor, ?_, ?_⟩
  · decide
  · decide

end Frequalizer
